import Mathlib

/-!
Shallow embedding of the access-control key-resharing reconciliation engine
from `cmd/upspin-sharebot/main.go` and `cmd/accessor/main.go` (upspin/exp).

Modelling conventions:
* `upspin.UserName`, `upspin.PathName` and `upspin.PublicKey` are Go strings;
  they are modelled as `String`.
* Go maps (`users`, `accessFiles`, `userKeys`, `userByHash`) are modelled as
  association lists with `alookup` / `ainsert` (insert replaces an existing
  binding, like a Go map assignment).
* A Go nil slice is distinct from an empty slice (`userList.String` prints
  `<nil>` for the former), so `userList` values are `Option (List String)`
  with `none` for Go `nil`.
* Go's `<` on strings compares UTF-8 bytes; on valid UTF-8 that order
  coincides with code-point lexicographic order, modelled by `charsLe` on
  `String.data`.  `sort.Sort(userList)` sorts by that order.
* External collaborators (key server, directory server, packer, access-file
  parser, factotum) are oracle functions collected in the `Env` structure;
  the engine's own logic is translated from the Go source.
-/

/-! ### Bytewise string order (Go `<` on strings) -/

def charsLe : List Char → List Char → Bool
  | [], _ => true
  | _ :: _, [] => false
  | a :: as, b :: bs => if a < b then true else if b < a then false else charsLe as bs

def charsLe_cons (a b : Char) (as bs : List Char) :
    charsLe (a :: as) (b :: bs) = true ↔ a < b ∨ (a = b ∧ charsLe as bs = true) := by
  simp only [charsLe]
  by_cases hab : a < b
  · simp [hab]
  · by_cases hba : b < a
    · have hne : ¬a = b := by
        rintro rfl
        exact lt_irrefl _ hba
      simp [hab, hba, hne]
    · have heq : a = b := le_antisymm (not_lt.mp hba) (not_lt.mp hab)
      simp [hab, hba, heq]

def charsLe_total : ∀ (a b : List Char), charsLe a b = true ∨ charsLe b a = true
  | [], _ => Or.inl rfl
  | _ :: _, [] => Or.inr rfl
  | a :: as, b :: bs => by
    rw [charsLe_cons, charsLe_cons]
    rcases lt_trichotomy a b with h | h | h
    · exact Or.inl (Or.inl h)
    · rcases charsLe_total as bs with h2 | h2
      · exact Or.inl (Or.inr ⟨h, h2⟩)
      · exact Or.inr (Or.inr ⟨h.symm, h2⟩)
    · exact Or.inr (Or.inl h)

def charsLe_trans : ∀ (a b c : List Char), charsLe a b = true → charsLe b c = true →
    charsLe a c = true
  | [], _, _, _, _ => rfl
  | _ :: _, [], _, h1, _ => by simp [charsLe] at h1
  | _ :: _, _ :: _, [], _, h2 => by simp [charsLe] at h2
  | a :: as, b :: bs, c :: cs, h1, h2 => by
    rw [charsLe_cons] at h1 h2 ⊢
    rcases h1 with h1 | ⟨rfl, h1⟩
    · rcases h2 with h2 | ⟨rfl, h2⟩
      · exact Or.inl (lt_trans h1 h2)
      · exact Or.inl h1
    · rcases h2 with h2 | ⟨rfl, h2⟩
      · exact Or.inl h2
      · exact Or.inr ⟨rfl, charsLe_trans as bs cs h1 h2⟩

def charsLe_antisymm : ∀ (a b : List Char), charsLe a b = true → charsLe b a = true →
    a = b
  | [], [], _, _ => rfl
  | [], _ :: _, _, h2 => by simp [charsLe] at h2
  | _ :: _, [], h1, _ => by simp [charsLe] at h1
  | a :: as, b :: bs, h1, h2 => by
    rw [charsLe_cons] at h1 h2
    rcases h1 with h1 | ⟨rfl, h1⟩
    · rcases h2 with h2 | ⟨rfl, h2⟩
      · exact absurd h2 (lt_asymm h1)
      · exact absurd h1 (lt_irrefl _)
    · rcases h2 with h2 | ⟨heq, h2⟩
      · exact absurd h2 (lt_irrefl _)
      · rw [charsLe_antisymm as bs h1 h2]

def stringDataEq {a b : String} (h : a.data = b.data) : a = b := by
  cases a
  cases b
  simp only at h
  rw [h]

/-- The Go comparison `u[i] < u[j]` on user names, as a non-strict total order. -/
def userLe (a b : String) : Bool := charsLe a.data b.data

def userLeR (a b : String) : Prop := userLe a b = true

instance : DecidableRel userLeR := fun a b => inferInstanceAs (Decidable (_ = true))

instance : IsTotal String userLeR := ⟨fun a b => charsLe_total a.data b.data⟩

instance : IsTrans String userLeR :=
  ⟨fun a b c h1 h2 => charsLe_trans a.data b.data c.data h1 h2⟩

instance : IsAntisymm String userLeR :=
  ⟨fun a b h1 h2 => stringDataEq (charsLe_antisymm a.data b.data h1 h2)⟩

/-! ### Association lists standing in for Go maps -/

def alookup {α β : Type} [DecidableEq α] : List (α × β) → α → Option β
  | [], _ => none
  | (k, v) :: t, a => if a = k then some v else alookup t a

def ainsert {α β : Type} [DecidableEq α] : List (α × β) → α → β → List (α × β)
  | [], k, v => [(k, v)]
  | (k', v') :: t, k, v => if k = k' then (k, v) :: t else (k', v') :: ainsert t k v

/-! ### Upspin paths

`upspin.PathName` values are parsed by `path.Parse` into a user name and a
list of path elements.  `p.Drop(1)` removes the last element (a no-op at the
root), `p.IsRoot()` tests for an empty element list, and `p.Path()` renders
the canonical string (`user/` for the root, `user/elem1/.../elemN` otherwise).
-/

structure UPath where
  user : String
  elems : List String
deriving DecidableEq, Repr

def pathStr (p : UPath) : String :=
  if p.elems.isEmpty then p.user ++ "/"
  else p.user ++ "/" ++ String.intercalate "/" p.elems

/-- `p.Drop(1)` from `upspin.io/path`. -/
def dropLast1 (p : UPath) : UPath := ⟨p.user, p.elems.dropLast⟩

/-! ### External constants (from `upspin.io/access`, `upspin.io/upspin`) -/

/-- `access.AllUsers`, the "all authenticated users" sentinel principal. -/
def allUsers : String := "all"

/-- `upspin.AllUsersKey`, the wildcard all-users public key (an opaque,
nonempty key string; its exact value is irrelevant to the engine logic). -/
def allUsersKey : String := "allusers-public-key"

/-- `upspin.EEPack`, the one supported packing scheme tag. -/
def eePack : Nat := 2

/-- `sha256.Size`: wrapped-key digests must be exactly 32 bytes. -/
def sha256Size : Nat := 32

/-- `isWildcardUser` from both main.go files: true when the name begins with
the two bytes `*@` (the Go code asks whether `*@` starts the string). -/
def isWildcardUser (u : String) : Bool :=
  match u.data with
  | '*' :: '@' :: _ => true
  | _ => false

/-- `access.IsAccessFile`: the path's last element is exactly `Access`.
(The access package lives outside this repository; modelled from its
documented behavior.) -/
def isAccessFile (p : UPath) : Bool := p.elems.getLast? = some "Access"

/-- `access.IsGroupFile`: the path lies under the user's `Group/` directory.
(Modelled from the access package's documented behavior.) -/
def isGroupFile (p : UPath) : Bool := p.elems.head? = some "Group"

/-- `access.IsAccessControlFile`: an Access or Group file. -/
def isAccessControlFile (p : UPath) : Bool := isAccessFile p || isGroupFile p

/-! ### `userList` and its canonical string form -/

/-- A Go `userList` value: `none` is the nil slice. -/
abbrev ULst := Option (List String)

/-- The list a Go `range` loop sees (nil ranges as empty). -/
def ulist (u : ULst) : List String := u.getD []

/-- `sort.Sort(u)`: sort user names by Go's bytewise string order. -/
def sortUsers (l : List String) : List String := List.insertionSort userLeR l

/-- `userList.String` from both main.go files: `<nil>` for a nil list,
otherwise the sorted names joined by single spaces (`fmt.Sprint` of the
slice with the surrounding brackets stripped). -/
def ulString (u : ULst) : String :=
  match u with
  | none => "<nil>"
  | some l => String.intercalate " " (sortUsers l)

/-! ### Sharer state and external environment -/

/-- A wrapped-key digest (`[]byte` in Go), as a list of byte values. -/
abbrev Digest := List Nat

/-- The mutable caches of `Sharer` (both main.go files):
`accessFiles` keyed by directory (payload: the parsed `*access.Access`,
abstracted to an identifier, `none` for a Go nil pointer), `users` keyed by
directory, `userKeys` and `userByHash`. -/
structure SharerState where
  accessFiles : List (String × Option Nat)
  users : List (String × ULst)
  userKeys : List (String × String)
  userByHash : List (Digest × String)
deriving DecidableEq, Repr

/-- A `upspin.DirEntry` as the engine consumes it: name, directory flag,
packing tag, and the opaque packdata blob (`none` = Go nil). -/
structure MDirEntry where
  name : UPath
  isDir : Bool
  packing : Nat
  packdata : Option (List Nat)
deriving DecidableEq, Repr

/-- Result of `dir.Lookup`: not-exist error, another error, or an entry. -/
inductive DirLookupRes
  | notExist
  | lookupErr
  | found (e : MDirEntry)
deriving DecidableEq, Repr

/-- Oracles for the external collaborators (key server, directory server,
packer, factotum, access-file evaluator).  The engine is proved correct for
every environment. -/
structure Env where
  /-- The config's own user name (`cfg.UserName()`). -/
  selfName : String
  /-- `key.Lookup(user)`: `none` = error, `some k` = the returned public key
  (possibly empty). -/
  keyService : String → Option String
  /-- `sha256.Sum256([]byte(key))`. -/
  hashKey : String → Digest
  /-- `cfg.Factotum().PublicKeyFromHash(hash)` succeeds (key-rotation check). -/
  factotumHasHash : Digest → Bool
  /-- `factotum.AllUsersKeyHash`. -/
  allUsersKeyHash : Digest
  /-- `pack.Lookup(packing) != nil`. -/
  packerKnown : Nat → Bool
  /-- `packer.ReaderHashes(entry.Packdata)`: `none` = error. -/
  readerHashes : Option (List Nat) → Option (List Digest)
  /-- `dir.Lookup(name)`. -/
  dirLookup : String → DirLookupRes
  /-- `packer.Share(cfg, keys, slot)`: the packdata left in the slot,
  `none` when packing was skipped (the failure the caller must detect). -/
  shareResult : List String → Option (List Nat)
  /-- `cli.Get(name)`: file content, `none` = error. -/
  get : String → Option String
  /-- `access.Parse(name, content)`: parsed Access object id, `none` = error. -/
  parseOk : String → String → Option Nat
  /-- `a.Users(access.Read, cli.Get)`: the expanded reader list, `none` =
  error (the inner `ULst` is the Go slice, itself possibly nil). -/
  usersOf : Nat → Option ULst
  /-- `dir.WhichAccess(name)` (accessor only): `none` = error,
  `some none` = no governing Access file, `some (some p)` = its path. -/
  whichAccess : String → Option (Option String)
  /-- `access.New(name)` (accessor only): `none` = error. -/
  newAccess : String → Option Nat

/-! ### `Sharer.lookupKey` -/

/-- Result of `Sharer.lookupKey`: the returned key, whether a non-nil error
was returned, the state after the call, and whether a remote key-server
call was performed. -/
structure LookupOut where
  key : String
  isErr : Bool
  st : SharerState
  remote : Bool
deriving DecidableEq, Repr

/-- Insert into `userKeys` only. -/
def cacheKey (st : SharerState) (u v : String) : SharerState :=
  { st with userKeys := ainsert st.userKeys u v }

/-- `Sharer.lookupKey` from both main.go files.  Branches in source order:
the `access.AllUsers` early return; the cache hit (empty cached keys encode
previously failed lookups); a dead second `AllUsers` check (kept from the
source, unreachable); the wildcard check; the remote lookup, caching the
key on success (plus the reverse digest index) and an empty key on failure
or an empty returned key. -/
def lookupKey (env : Env) (st : SharerState) (user : String) : LookupOut :=
  if user = allUsers then ⟨allUsersKey, false, st, false⟩
  else
    match alookup st.userKeys user with
    | some k => ⟨k, false, st, false⟩
    | none =>
      if user = allUsers then ⟨"", false, cacheKey st user "<all>", false⟩
      else if isWildcardUser user then ⟨"", false, cacheKey st user "", false⟩
      else
        match env.keyService user with
        | none => ⟨"", true, cacheKey st user "", true⟩
        | some k =>
          if k = "" then ⟨"", true, cacheKey st user "", true⟩
          else
            ⟨k, false,
              { st with
                userKeys := ainsert st.userKeys user k,
                userByHash := ainsert st.userByHash (env.hashKey k) user }, true⟩

/-- The `for _, user := range users { lookupKey(user) }` loop at the top of
`Sharer.readers`: warms the key cache and records (as the second component)
the users whose lookup failed — each of those is logged with
`log.Error.Printf` in the source. -/
def warmKeys (env : Env) (st : SharerState) : List String → SharerState × List String
  | [] => (st, [])
  | u :: t =>
    let r := lookupKey env st u
    let rest := warmKeys env r.st t
    (rest.1, if r.isErr then u :: rest.2 else rest.2)

/-! ### Intended-reader resolution (the walk in `Sharer.readers`) -/

/-- The `for { p = p.Drop(1); ... }` walk of `Sharer.readers`, after the
first Drop: check the `users` cache at this directory; on a miss, return
the owner-only default at the root, else drop another element.  The Go
loop is translated with an explicit structural fuel (so that the
definition computes); `walkUsers` below supplies fuel that provably
suffices (the walk drops one path element per iteration). -/
def walkUsersFuel (cache : List (String × ULst)) : Nat → UPath → ULst
  | 0, p => some [p.user]
  | fuel + 1, p =>
    match alookup cache (pathStr p) with
    | some v => v
    | none =>
      if p.elems = [] then some [p.user]
      else walkUsersFuel cache fuel (dropLast1 p)

/-- The walk with adequate fuel. -/
def walkUsers (cache : List (String × ULst)) (p : UPath) : ULst :=
  walkUsersFuel cache (p.elems.length + 1) p

/-- Intended readers of a file: the walk starts at the file's parent
directory (the loop body drops one element before its first cache probe). -/
def resolveReaders (cache : List (String × ULst)) (file : UPath) : ULst :=
  walkUsers cache (dropLast1 file)

/-! ### Actual-reader recovery (the hash loop in `Sharer.readers`) -/

/-- One iteration of the hash loop in `Sharer.readers`: `none` means the
digest contributes nothing (`continue` in the source — wrong length, or a
packing other than EEPack), `some (u, s)` appends `u` to `keyUsers` and
ors `s` into the self flag.  Branches in source order: exact length check
(a mismatch is logged and skipped, never truncated), reverse digest index,
the factotum old-key check (self), the all-users key hash, and the
explicit `unknown` fallback. -/
def classifyHash (st : SharerState) (env : Env) (packing : Nat) (hash : Digest) :
    Option (String × Bool) :=
  if packing = eePack then
    if hash.length ≠ sha256Size then none
    else
      match alookup st.userByHash hash with
      | some u => some (u, false)
      | none =>
        if env.factotumHasHash hash then some (env.selfName, true)
        else if hash = env.allUsersKeyHash then some (allUsers, false)
        else some ("unknown", false)
  else none

/-- One `keyUsers = append(keyUsers, thisUser)` step of the hash loop
(`append` to a nil Go slice yields a non-nil one). -/
def classifyStep (st : SharerState) (env : Env) (packing : Nat) (acc : ULst × Bool)
    (h : Digest) : ULst × Bool :=
  match classifyHash st env packing h with
  | none => acc
  | some (u, sf) => (some (ulist acc.1 ++ [u]), acc.2 || sf)

/-- The whole hash loop: fold `classifyHash` over the digest list,
appending to an initially nil `keyUsers` and accumulating `self`. -/
def classifyAll (st : SharerState) (env : Env) (packing : Nat) (hashes : List Digest) :
    ULst × Bool :=
  hashes.foldl (classifyStep st env packing) (none, false)

/-! ### `Sharer.readers` -/

/-- Result of `Sharer.readers`: intended users, recovered key users, the
self-rewrap flag, whether a non-nil error was returned, the state after the
call, and the users whose key lookup was logged as failed. -/
structure ReadersOut where
  users : ULst
  keyUsers : ULst
  self : Bool
  isErr : Bool
  st : SharerState
  warned : List String
deriving Repr

/-- `Sharer.readers` from both main.go files: directories have no readers;
otherwise resolve the intended set by the ancestor walk, warm the key cache
for every intended user (logging failures), then recover the actual reader
set from the packdata digests.  A missing packer or a `ReaderHashes` error
returns a non-nil error (with `users` respectively kept / reset to nil,
as in the source). -/
def readersF (env : Env) (st : SharerState) (e : MDirEntry) : ReadersOut :=
  if e.isDir then ⟨none, none, false, false, st, []⟩
  else
    let us := resolveReaders st.users e.name
    let ws := warmKeys env st (ulist us)
    if env.packerKnown e.packing = false then ⟨us, none, false, true, ws.1, ws.2⟩
    else
      match env.readerHashes e.packdata with
      | none => ⟨none, none, false, true, ws.1, ws.2⟩
      | some hashes =>
        let ks := classifyAll ws.1 env e.packing hashes
        ⟨us, ks.1, ks.2, false, ws.1, ws.2⟩

/-! ### `Sharer.fixShare` -/

/-- The error cases `Sharer.fixShare` can return (or, for `nilDeref`, the
nil-pointer dereference the source would hit if `lookupPacker` returned nil
— unreachable from `checkLoop`, which guards on EEPack first). -/
inductive FixErr
  | isDir
  | nilDeref
  | badPacking
  | lookupFail (u : String)
  | packingSkipped
deriving DecidableEq, Repr

/-- Result of `Sharer.fixShare`: the error (if any), the state after the
call, whether `dir.Put` was invoked, and the key set handed to
`packer.Share` (`none` when `Share` was never reached). -/
structure FixOut where
  err : Option FixErr
  st : SharerState
  putCalled : Bool
  keysArg : Option (List String)
deriving DecidableEq, Repr

/-- The `for _, user := range users` loop of `fixShare`: `access.AllUsers`
sets the `all` flag; any other user is resolved via `lookupKey`, a non-nil
error aborts (`return errors.E(entry.Name, user, err)`), and nonempty keys
are collected in order. -/
def fixKeysGo (env : Env) : List String → SharerState → List String → Bool →
    Except (String × SharerState) (List String × Bool × SharerState)
  | [], st, acc, al => .ok (acc, al, st)
  | u :: t, st, acc, al =>
    if u = allUsers then fixKeysGo env t st acc true
    else
      let r := lookupKey env st u
      if r.isErr then .error (u, r.st)
      else fixKeysGo env t r.st (if 0 < r.key.length then acc ++ [r.key] else acc) al

/-- `Sharer.fixShare` from both main.go files: reject directories; reject
packings other than EEPack; start `all` from `access.IsAccessControlFile`;
gather keys (skipping cached-empty ones); append `upspin.AllUsersKey` when
`all`; call `packer.Share`; if the packdata slot is left nil, return the
"packing skipped" error *without* calling `dir.Put`; otherwise `dir.Put`. -/
def fixShare (env : Env) (st : SharerState) (en : UPath) (isDir : Bool) (packing : Nat)
    (users : ULst) : FixOut :=
  if isDir then ⟨some .isDir, st, false, none⟩
  else if env.packerKnown packing = false then ⟨some .nilDeref, st, false, none⟩
  else if packing ≠ eePack then ⟨some .badPacking, st, false, none⟩
  else
    match fixKeysGo env (ulist users) st [] (isAccessControlFile en) with
    | .error (u, st1) => ⟨some (.lookupFail u), st1, false, none⟩
    | .ok (ks, al, st1) =>
      let keys := if al then ks ++ [allUsersKey] else ks
      match env.shareResult keys with
      | none => ⟨some .packingSkipped, st1, false, some keys⟩
      | some _ => ⟨none, st1, true, some keys⟩

/-! ### `Watcher.checkLoop` (one iteration) -/

/-- What one `checkLoop` iteration did with a path name. -/
inductive CheckOutcome
  | skippedNotExist
  | skippedLookupErr
  | skippedPacking
  | readersErr
  | converged
  | fixed (users : ULst) (fx : FixOut)
deriving DecidableEq, Repr

/-- True when the iteration performed a directory write. -/
def putHappened : CheckOutcome → Bool
  | .fixed _ fx => fx.putCalled
  | _ => false

/-- One iteration of `Watcher.checkLoop` on a path name: re-fetch the
authoritative entry; skip on not-exist / error / non-EEPack packing; run
`Sharer.readers`; compare `readers.String()` with `keyUsers.String()` (the
`fmt.Sprintf` of the log message invokes `String`, which sorts both lists
in place, so `fixShare` receives the sorted intended list — rendering the
already-sorted list gives the same string); when converged (equal strings
and no self flag) do nothing, else call `fixShare` with the intended set. -/
def checkName (env : Env) (st : SharerState) (nm : String) : CheckOutcome × SharerState :=
  match env.dirLookup nm with
  | .notExist => (.skippedNotExist, st)
  | .lookupErr => (.skippedLookupErr, st)
  | .found e =>
    if e.packing ≠ eePack then (.skippedPacking, st)
    else
      let r := readersF env st e
      if r.isErr then (.readersErr, r.st)
      else
        if r.self = false ∧ ulString r.users = ulString r.keyUsers then (.converged, r.st)
        else
          let fx := fixShare env r.st e.name e.isDir e.packing (r.users.map sortUsers)
          (.fixed (r.users.map sortUsers) fx, fx.st)

/-! ### `Sharer.addAccess` — the two variants -/

/-- `Sharer.addAccess` from `cmd/upspin-sharebot/main.go`: fetch the Access
file's content, parse it, expand its readers, then store the parsed object
and the reader list in the caches keyed by the file's directory, replacing
any previous bindings.  `none` = a non-nil error return (state unchanged:
every error in this variant occurs before the cache writes). -/
def addAccessSharebot (env : Env) (st : SharerState) (name : UPath) : Option SharerState :=
  match env.get (pathStr name) with
  | none => none
  | some b =>
    match env.parseOk (pathStr name) b with
    | none => none
    | some a =>
      match env.usersOf a with
      | none => none
      | some readers =>
        let dir := pathStr (dropLast1 name)
        some { st with
          accessFiles := ainsert st.accessFiles dir (some a),
          users := ainsert st.users dir readers }

/-- Outcome of the accessor variant of `addAccess`: `ok` (nil error), `err`
(non-nil error; the state reflects any cache writes made before the
return), or `nilDeref` (the `a.Users` call on a nil `*access.Access`,
reachable because the `access.Parse` error is assigned to a shadowed `err`
and the nil result is stored and dereferenced). -/
inductive AccOut
  | ok (st : SharerState)
  | err (st : SharerState)
  | nilDeref (st : SharerState)
deriving DecidableEq, Repr

/-- Shared tail of the accessor `addAccess`: store the parsed object (which
is nil when `access.Parse` failed, its error having been shadowed), then
expand and store the readers. -/
def accessorFinish (env : Env) (st : SharerState) (nm : String) (a : Option Nat) : AccOut :=
  let st1 := { st with accessFiles := ainsert st.accessFiles nm a }
  match a with
  | none => .nilDeref st1
  | some aa =>
    match env.usersOf aa with
    | none => .err st1
    | some us => .ok { st1 with users := ainsert st1.users nm us }

/-- `Sharer.addAccess` from `cmd/accessor/main.go`: key by the entry's
directory (the entry itself when it is a directory); **return immediately
when `accessFiles` already has a binding for that directory**; otherwise
consult `dir.WhichAccess`, parse the governing file (or `access.New` when
there is none) and store object and readers. -/
def addAccessAccessor (env : Env) (st : SharerState) (en : UPath) (isDir : Bool) : AccOut :=
  let nm := if isDir then en else dropLast1 en
  if (alookup st.accessFiles (pathStr nm)).isSome then .ok st
  else
    match env.whichAccess (pathStr en) with
    | none => .err st
    | some none =>
      match env.newAccess (pathStr nm) with
      | none => .err st
      | some a => accessorFinish env st (pathStr nm) (some a)
    | some (some whichName) =>
      match env.get whichName with
      | none => .err st
      | some b => accessorFinish env st (pathStr nm) (env.parseOk whichName b)

/-! ### The dedup work buffer (`Watcher.bufferLoop` / `storeLoop`) -/

/-- Receiving a path name on the buffer channel: `files[newName] = true`.
A Go map assignment of an already-present key is a no-op on the key set. -/
def enqueuePath (files : List String) (n : String) : List String :=
  if n ∈ files then files else files ++ [n]

/-- `n` successive enqueues of the same path, all delivered before the
checker takes the path. -/
def enqueueN : Nat → List String → String → List String
  | 0, fs, _ => fs
  | n + 1, fs, p => enqueueN n (enqueuePath fs p) p

/-- Handing a pending path to the checker: `delete(files, name)`. -/
def dequeuePath (files : List String) (n : String) : List String := files.erase n

/-! ### The reconnect wait in `Watcher.watchLoop` (sharebot) -/

/-- `1 + time.Minute` in nanoseconds (the literal `1` adds one nanosecond). -/
def watchWaitNanos : Nat := 60000000001

/-- What one pass of the bottom of `watchLoop` does.  `returnedAtCheck`:
the `select` on `w.shutdown` before the wait fired and the loop returned.
`sleptTotal`: the length of the `time.Sleep` that follows.
`sleptAfterSignal`: how long the goroutine stays in that sleep after a
shutdown signal arrives mid-sleep. -/
structure WatchWaitOut where
  returnedAtCheck : Bool
  sleptTotal : Nat
  sleptAfterSignal : Nat
deriving DecidableEq, Repr

/-- The bottom of `Watcher.watchLoop` (sharebot): a non-blocking `select`
observes `w.shutdown` and returns; otherwise, when less than the minimum
interval has elapsed since dialing, the loop calls `time.Sleep` for the
remainder.  `signalDuringWait = some t` means the shutdown signal arrives
`t` nanoseconds into that sleep; `time.Sleep` takes no channel, so the
sleep's duration does not depend on it — the goroutine stays blocked for
the rest of the interval. -/
def watchLoopWait (shutdownAtCheck : Bool) (elapsed : Nat) (signalDuringWait : Option Nat) :
    WatchWaitOut :=
  if shutdownAtCheck then ⟨true, 0, 0⟩
  else
    let d := if elapsed < watchWaitNanos then watchWaitNanos - elapsed else 0
    ⟨false, d,
      match signalDuringWait with
      | none => 0
      | some t => d - t⟩

/-! ### Spec-side description of the intended-reader walk (for C2) -/

/-- The chain of directories the walk visits, nearest first, ending at the
root. -/
def chainFrom (q : UPath) : List UPath :=
  q :: (if h : q.elems = [] then [] else chainFrom (dropLast1 q))
termination_by q.elems.length
decreasing_by
  simp only [dropLast1, List.length_dropLast]
  have hl : 0 < q.elems.length := List.length_pos.mpr h
  omega

/-- Modelled from the claim's words: walk from the file's parent upward,
return the cached reader set of the first (nearest) ancestor directory with
a cached entry; with no cache hit up to and including the root, return the
owner-only default. -/
def resolveReadersSpec (cache : List (String × ULst)) (file : UPath) : ULst :=
  ((chainFrom (dropLast1 file)).findSome? (fun q => alookup cache (pathStr q))).getD
    (some [file.user])

/-! ### Concrete fixtures for witnesses -/

/-- The key list the `fixShare` loop collects when every non-sentinel user
it meets is already cached: each such user's cached key, when nonempty, in
order.  (Characterizes the loop's result after `readers` warmed the cache.) -/
def gatherKeys (st : SharerState) (us : List String) : List String :=
  us.filterMap (fun v =>
    if v = allUsers then none
    else
      match alookup st.userKeys v with
      | some k => if 0 < k.length then some k else none
      | none => none)

/-- A default environment for concrete evaluations. -/
def env0 : Env :=
  { selfName := "self@example.com"
    keyService := fun _ => none
    hashKey := fun _ => []
    factotumHasHash := fun _ => false
    allUsersKeyHash := List.replicate 32 255
    packerKnown := fun p => p == eePack
    readerHashes := fun _ => some []
    dirLookup := fun _ => .notExist
    shareResult := fun _ => some []
    get := fun _ => none
    parseOk := fun _ _ => none
    usersOf := fun _ => none
    whichAccess := fun _ => none
    newAccess := fun _ => none }

/-- An empty sharer state. -/
def st0 : SharerState := ⟨[], [], [], []⟩

/-- A 32-byte digest. -/
def d32 : Digest := List.replicate 32 7

/-- The digest of the owner's key in the C1 witness scenario. -/
def ownerDig : Digest := List.replicate 32 0

/-- The entry checked in the C1 witness scenario. -/
def eW : MDirEntry := ⟨⟨"o@x.com", ["f"]⟩, false, eePack, some []⟩

/-- Environment for the C1 witness scenario. -/
def envW : Env :=
  { env0 with
    dirLookup := fun nm => if nm = "o@x.com/f" then .found eW else .notExist
    readerHashes := fun _ => some [ownerDig] }

/-- State for the C1 witness scenario: the owner's key is cached and its
digest resolves back to the owner. -/
def stW : SharerState := ⟨[], [], [("o@x.com", "K")], [(ownerDig, "o@x.com")]⟩

/-! ### Claim theorems -/

/-- State for the C6 witness. -/
def envC6 : Env := { env0 with shareResult := fun _ => none }

/-- Sharer state for the C8 scenario: directory `u@example.com/dir` already
has a cached Access object (id 1) and the stale owner-only reader set. -/
def stC8 : SharerState :=
  ⟨[("u@example.com/dir", some 1)], [("u@example.com/dir", some ["u@example.com"])], [], []⟩

/-- Environment for the C8 scenario: the Access file's new content parses
to object 2 whose Read users are aly and the owner. -/
def envC8 : Env :=
  { env0 with
    get := fun _ => some "r: aly@example.net, u@example.com"
    parseOk := fun _ _ => some 2
    usersOf := fun a =>
      if a = 2 then some (some ["aly@example.net", "u@example.com"]) else none
    whichAccess := fun _ => some (some "u@example.com/dir/Access") }

theorem alookup_ainsert {α β : Type} [DecidableEq α] :
    ∀ (l : List (α × β)) (k a : α) (v : β),
      alookup (ainsert l k v) a = if a = k then some v else alookup l a
  | [], k, a, v => by simp [ainsert, alookup]
  | (k', v') :: t, k, a, v => by
    by_cases hkk : k = k'
    · subst hkk
      by_cases hak : a = k <;> simp [ainsert, alookup, hak]
    · by_cases hak : a = k'
      · subst hak
        have hne : ¬a = k := fun h => hkk h.symm
        simp [ainsert, alookup, hkk, hne]
      · simp [ainsert, alookup, hkk, hak, alookup_ainsert t k a v]

theorem alookup_ainsert_self {α β : Type} [DecidableEq α] (l : List (α × β)) (k : α) (v : β) :
    alookup (ainsert l k v) k = some v := by
  simp [alookup_ainsert]

theorem alookup_ainsert_ne {α β : Type} [DecidableEq α] (l : List (α × β)) (k a : α) (v : β)
    (h : a ≠ k) : alookup (ainsert l k v) a = alookup l a := by
  simp [alookup_ainsert, h]

theorem walkUsersFuel_spec (cache : List (String × ULst)) :
    ∀ (fuel : Nat) (q : UPath), q.elems.length < fuel →
      walkUsersFuel cache fuel q =
        ((chainFrom q).findSome? (fun a => alookup cache (pathStr a))).getD (some [q.user]) := by
  intro fuel
  induction fuel with
  | zero =>
    intro q hq
    exact absurd hq (Nat.not_lt_zero _)
  | succ n ih =>
    intro q hq
    rw [walkUsersFuel, chainFrom]
    cases hc : alookup cache (pathStr q) with
    | some v => simp [hc]
    | none =>
      by_cases he : q.elems = []
      · simp [hc, he]
      · have hlen : (dropLast1 q).elems.length < n := by
          simp only [dropLast1, List.length_dropLast]
          have hl : 0 < q.elems.length := List.length_pos.mpr he
          omega
        have huser : (dropLast1 q).user = q.user := rfl
        simp only [he, if_false, List.findSome?_cons, hc]
        rw [ih (dropLast1 q) hlen, huser]
        simp

theorem walkUsers_spec (cache : List (String × ULst)) (q : UPath) :
    walkUsers cache q =
      ((chainFrom q).findSome? (fun a => alookup cache (pathStr a))).getD (some [q.user]) :=
  walkUsersFuel_spec cache (q.elems.length + 1) q (Nat.lt_succ_self _)

/-! ### Behavior of `lookupKey` and the cache-warming loop -/

theorem lookupKey_allUsers (env : Env) (st : SharerState) :
    lookupKey env st allUsers = ⟨allUsersKey, false, st, false⟩ := by
  simp [lookupKey]

theorem lookupKey_cached (env : Env) (st : SharerState) (u k : String)
    (hu : u ≠ allUsers) (hc : alookup st.userKeys u = some k) :
    lookupKey env st u = ⟨k, false, st, false⟩ := by
  simp [lookupKey, hu, hc]

theorem lookupKey_failed (env : Env) (st : SharerState) (u : String)
    (hu : u ≠ allUsers) (hw : isWildcardUser u = false)
    (hc : alookup st.userKeys u = none)
    (hf : env.keyService u = none ∨ env.keyService u = some "") :
    lookupKey env st u = ⟨"", true, cacheKey st u "", true⟩ := by
  rcases hf with hf | hf <;> simp [lookupKey, hu, hw, hc, hf]

theorem lookupKey_userKeys_ne (env : Env) (st : SharerState) (u v : String)
    (hne : v ≠ u) :
    alookup (lookupKey env st u).st.userKeys v = alookup st.userKeys v := by
  unfold lookupKey
  by_cases h1 : u = allUsers
  · simp [h1]
  · cases hc : alookup st.userKeys u with
    | some k => simp [h1, hc]
    | none =>
      by_cases hw : isWildcardUser u
      · simp [h1, hc, hw, cacheKey, alookup_ainsert_ne _ _ _ _ hne]
      · cases hk : env.keyService u with
        | none => simp [h1, hc, hw, hk, cacheKey, alookup_ainsert_ne _ _ _ _ hne]
        | some k =>
          by_cases hk0 : k = "" <;>
            simp [h1, hc, hw, hk, hk0, cacheKey, alookup_ainsert_ne _ _ _ _ hne]

theorem lookupKey_caches_self (env : Env) (st : SharerState) (u : String)
    (hu : u ≠ allUsers) :
    (alookup (lookupKey env st u).st.userKeys u).isSome = true := by
  unfold lookupKey
  cases hc : alookup st.userKeys u with
  | some k => simp [hu, hc]
  | none =>
    by_cases hw : isWildcardUser u
    · simp [hu, hc, hw, cacheKey, alookup_ainsert_self]
    · cases hk : env.keyService u with
      | none => simp [hu, hc, hw, hk, cacheKey, alookup_ainsert_self]
      | some k =>
        by_cases hk0 : k = "" <;>
          simp [hu, hc, hw, hk, hk0, cacheKey, alookup_ainsert_self]

theorem warmKeys_preserves (env : Env) :
    ∀ (us : List String) (st : SharerState) (v k : String),
      alookup st.userKeys v = some k →
      alookup (warmKeys env st us).1.userKeys v = some k
  | [], _, _, _, h => h
  | u :: t, st, v, k, h => by
    simp only [warmKeys]
    apply warmKeys_preserves env t
    by_cases hvu : v = u
    · subst hvu
      by_cases hu : v = allUsers
      · subst hu
        rw [lookupKey_allUsers]
        exact h
      · rw [lookupKey_cached env st v k hu h]
        exact h
    · rw [lookupKey_userKeys_ne env st u v hvu]
      exact h

theorem warmKeys_mem_cached (env : Env) :
    ∀ (us : List String) (st : SharerState) (v : String),
      v ∈ us → v ≠ allUsers →
      (alookup (warmKeys env st us).1.userKeys v).isSome = true
  | [], _, _, h, _ => absurd h (List.not_mem_nil _)
  | u :: t, st, v, hmem, hv => by
    rcases List.mem_cons.mp hmem with rfl | hmem2
    · simp only [warmKeys]
      have h1 := lookupKey_caches_self env st v hv
      rcases Option.isSome_iff_exists.mp h1 with ⟨k, hk⟩
      have h2 := warmKeys_preserves env t (lookupKey env st v).st v k hk
      simp [h2]
    · simp only [warmKeys]
      exact warmKeys_mem_cached env t (lookupKey env st u).st v hmem2 hv

theorem warmKeys_failed_mem (env : Env) :
    ∀ (us : List String) (st : SharerState) (u : String),
      u ∈ us → u ≠ allUsers → isWildcardUser u = false →
      alookup st.userKeys u = none →
      (env.keyService u = none ∨ env.keyService u = some "") →
      u ∈ (warmKeys env st us).2 ∧
        alookup (warmKeys env st us).1.userKeys u = some ""
  | [], _, _, h, _, _, _, _ => absurd h (List.not_mem_nil _)
  | w :: t, st, u, hmem, hu, hw, hc, hf => by
    by_cases hwu : w = u
    · subst hwu
      simp only [warmKeys]
      rw [lookupKey_failed env st w hu hw hc hf]
      constructor
      · simp
      · exact warmKeys_preserves env t _ w ""
          (by simp [cacheKey, alookup_ainsert_self])
    · have hmem2 : u ∈ t := by
        rcases List.mem_cons.mp hmem with h | h
        · exact absurd h.symm hwu
        · exact h
      have hc2 : alookup (lookupKey env st w).st.userKeys u = none := by
        rw [lookupKey_userKeys_ne env st w u (fun h => hwu h.symm)]
        exact hc
      have ih := warmKeys_failed_mem env t (lookupKey env st w).st u hmem2 hu hw hc2 hf
      simp only [warmKeys]
      refine ⟨?_, ih.2⟩
      by_cases he : (lookupKey env st w).isErr <;> simp [he, ih.1]

/-! ### Behavior of the `fixShare` key-gathering loop -/

theorem fixKeysGo_all_cached (env : Env) :
    ∀ (us : List String) (st : SharerState) (acc : List String) (al : Bool),
      (∀ v, v ∈ us → v ≠ allUsers → (alookup st.userKeys v).isSome = true) →
      ∃ al2, fixKeysGo env us st acc al = .ok (acc ++ gatherKeys st us, al2, st)
  | [], st, acc, al, _ => ⟨al, by simp [fixKeysGo, gatherKeys]⟩
  | u :: t, st, acc, al, hcached => by
    by_cases hu : u = allUsers
    · obtain ⟨al2, heq⟩ := fixKeysGo_all_cached env t st acc true
        (fun v hv => hcached v (List.mem_cons_of_mem _ hv))
      refine ⟨al2, ?_⟩
      have hg : gatherKeys st (u :: t) = gatherKeys st t := by
        simp [gatherKeys, hu]
      simp only [fixKeysGo, hu, if_true, hg]
      exact heq
    · have hs := hcached u (List.mem_cons_self _ _) hu
      rcases Option.isSome_iff_exists.mp hs with ⟨k, hk⟩
      obtain ⟨al2, heq⟩ := fixKeysGo_all_cached env t st
        (if 0 < k.length then acc ++ [k] else acc) al
        (fun v hv hvu => hcached v (List.mem_cons_of_mem _ hv) hvu)
      refine ⟨al2, ?_⟩
      simp only [fixKeysGo, hu, if_false]
      rw [lookupKey_cached env st u k hu hk]
      simp only [Bool.false_eq_true, if_false]
      rw [heq]
      have hg : gatherKeys st (u :: t) =
          (if 0 < k.length then [k] else []) ++ gatherKeys st t := by
        by_cases h0 : 0 < k.length <;> simp [gatherKeys, hu, hk, h0]
      rw [hg]
      by_cases h0 : 0 < k.length <;> simp [h0, List.append_assoc]

theorem gatherKeys_ne_empty (st : SharerState) (us : List String) (k : String)
    (hk : k ∈ gatherKeys st us) : k ≠ "" := by
  rcases List.mem_filterMap.mp hk with ⟨v, _, hf⟩
  by_cases hv : v = allUsers
  · simp [hv] at hf
  · simp only [hv, if_false] at hf
    cases hc : alookup st.userKeys v with
    | none =>
      rw [hc] at hf
      simp at hf
    | some kv =>
      rw [hc] at hf
      have hf2 : (if 0 < kv.length then some kv else none) = some k := hf
      by_cases h0 : 0 < kv.length
      · rw [if_pos h0] at hf2
        have hkk : kv = k := Option.some.inj hf2
        subst hkk
        intro hk0
        rw [hk0] at h0
        simp at h0
      · rw [if_neg h0] at hf2
        exact Option.noConfusion hf2

theorem gatherKeys_mem (st : SharerState) (us : List String) (v kv : String)
    (hmem : v ∈ us) (hv : v ≠ allUsers)
    (hc : alookup st.userKeys v = some kv) (h0 : 0 < kv.length) :
    kv ∈ gatherKeys st us := by
  apply List.mem_filterMap.mpr
  exact ⟨v, hmem, by simp [hv, hc, h0]⟩

/-! ### Behavior of the hash loop -/

theorem classifyFold_grow (st : SharerState) (env : Env) (p : Nat) :
    ∀ (hashes : List Digest) (acc : ULst × Bool) (u : String),
      u ∈ ulist acc.1 → u ∈ ulist (hashes.foldl (classifyStep st env p) acc).1
  | [], _, _, h => h
  | h0 :: t, acc, u, h => by
    simp only [List.foldl_cons]
    apply classifyFold_grow st env p t
    unfold classifyStep
    cases hc : classifyHash st env p h0 with
    | none => exact h
    | some pr =>
      rcases pr with ⟨w, sf⟩
      simp only [ulist, Option.getD_some]
      exact List.mem_append_left _ h

theorem classifyFold_mem (st : SharerState) (env : Env) (p : Nat) :
    ∀ (hashes : List Digest) (acc : ULst × Bool) (h : Digest) (u : String) (sf : Bool),
      h ∈ hashes → classifyHash st env p h = some (u, sf) →
      u ∈ ulist (hashes.foldl (classifyStep st env p) acc).1
  | [], _, _, _, _, hmem, _ => absurd hmem (List.not_mem_nil _)
  | h0 :: t, acc, h, u, sf, hmem, hcl => by
    simp only [List.foldl_cons]
    rcases List.mem_cons.mp hmem with rfl | hmem2
    · apply classifyFold_grow
      unfold classifyStep
      rw [hcl]
      simp [ulist]
    · exact classifyFold_mem st env p t _ h u sf hmem2 hcl

theorem classifyAll_mem (st : SharerState) (env : Env) (p : Nat)
    (hashes : List Digest) (h : Digest) (u : String) (sf : Bool)
    (hmem : h ∈ hashes) (hcl : classifyHash st env p h = some (u, sf)) :
    u ∈ ulist (classifyAll st env p hashes).1 :=
  classifyFold_mem st env p hashes (none, false) h u sf hmem hcl

/-! ### Behavior of the canonical sort -/

theorem sortUsers_perm (l : List String) : (sortUsers l).Perm l :=
  List.perm_insertionSort _ l

theorem sortUsers_sorted (l : List String) : (sortUsers l).Sorted userLeR :=
  List.sorted_insertionSort _ l

theorem sortUsers_congr (l1 l2 : List String) (h : l1.Perm l2) :
    sortUsers l1 = sortUsers l2 :=
  List.eq_of_perm_of_sorted
    ((sortUsers_perm l1).trans (h.trans (sortUsers_perm l2).symm))
    (sortUsers_sorted l1) (sortUsers_sorted l2)

/-! ### Behavior of `readersF` for checked files -/

theorem readersF_file (env : Env) (st : SharerState) (e : MDirEntry)
    (hdir : e.isDir = false) (hpk : env.packerKnown e.packing = true)
    (hs : List Digest) (hrh : env.readerHashes e.packdata = some hs) :
    readersF env st e =
      ⟨resolveReaders st.users e.name,
        (classifyAll (warmKeys env st (ulist (resolveReaders st.users e.name))).1
          env e.packing hs).1,
        (classifyAll (warmKeys env st (ulist (resolveReaders st.users e.name))).1
          env e.packing hs).2,
        false,
        (warmKeys env st (ulist (resolveReaders st.users e.name))).1,
        (warmKeys env st (ulist (resolveReaders st.users e.name))).2⟩ := by
  simp [readersF, hdir, hpk, hrh]

/-! ### Behavior of the dedup buffer -/

theorem enqueuePath_count (files : List String) (p : String)
    (h : files.count p ≤ 1) : (enqueuePath files p).count p = 1 := by
  unfold enqueuePath
  by_cases hm : p ∈ files
  · have h1 : 0 < files.count p := List.count_pos_iff.mpr hm
    rw [if_pos hm]
    omega
  · have h0 : files.count p = 0 := List.count_eq_zero.mpr hm
    rw [if_neg hm]
    simp [List.count_append, h0]

theorem enqueuePath_mem_eq (files : List String) (p : String) (h : p ∈ files) :
    enqueuePath files p = files := by
  simp [enqueuePath, h]

theorem enqueueN_mem_eq : ∀ (n : Nat) (files : List String) (p : String), p ∈ files →
    enqueueN n files p = files
  | 0, _, _, _ => rfl
  | n + 1, files, p, h => by
    simp only [enqueueN, enqueuePath_mem_eq files p h]
    exact enqueueN_mem_eq n files p h

theorem enqueuePath_nodup (files : List String) (p : String) (h : files.Nodup) :
    (enqueuePath files p).Nodup := by
  unfold enqueuePath
  by_cases hm : p ∈ files
  · simpa [hm]
  · simp [hm, List.nodup_append, h, List.disjoint_singleton]

/-- C1: for every checked file entry using the supported packing (EEPack)
whose reader recovery succeeds, the `checkLoop` iteration converges — no
`fixShare` call, no directory write — exactly when the canonical string of
the intended reader set equals that of the recovered actual set and the
self flag is clear; otherwise `fixShare` is invoked with the intended set
(the sorted intended list, a permutation of the resolved one). -/
theorem check_compare_decides (env : Env) (st : SharerState) (nm : String) (e : MDirEntry)
    (hfound : env.dirLookup nm = DirLookupRes.found e)
    (hpack : e.packing = eePack) (hdir : e.isDir = false)
    (hpk : env.packerKnown eePack = true)
    (hs : List Digest) (hrh : env.readerHashes e.packdata = some hs) :
    (((readersF env st e).self = false ∧
        ulString (readersF env st e).users = ulString (readersF env st e).keyUsers) →
      checkName env st nm = (CheckOutcome.converged, (readersF env st e).st) ∧
      putHappened (checkName env st nm).1 = false) ∧
    (((readersF env st e).self = true ∨
        ulString (readersF env st e).users ≠ ulString (readersF env st e).keyUsers) →
      (checkName env st nm).1 =
        CheckOutcome.fixed ((readersF env st e).users.map sortUsers)
          (fixShare env (readersF env st e).st e.name e.isDir e.packing
            ((readersF env st e).users.map sortUsers)) ∧
      ∀ l, (readersF env st e).users = some l → (sortUsers l).Perm l) := by
  have hne : (readersF env st e).isErr = false := by
    rw [readersF_file env st e hdir (by rw [hpack]; exact hpk) hs hrh]
  have hcn : checkName env st nm =
      if (readersF env st e).self = false ∧
          ulString (readersF env st e).users = ulString (readersF env st e).keyUsers
      then (CheckOutcome.converged, (readersF env st e).st)
      else
        (CheckOutcome.fixed ((readersF env st e).users.map sortUsers)
          (fixShare env (readersF env st e).st e.name e.isDir e.packing
            ((readersF env st e).users.map sortUsers)),
        (fixShare env (readersF env st e).st e.name e.isDir e.packing
            ((readersF env st e).users.map sortUsers)).st) := by
    simp only [checkName, hfound]
    rw [if_neg (by simp [hpack])]
    simp only [hne, Bool.false_eq_true, if_false]
  constructor
  · intro hcond
    rw [hcn, if_pos hcond]
    exact ⟨rfl, rfl⟩
  · intro hcond
    have hnotcond : ¬((readersF env st e).self = false ∧
        ulString (readersF env st e).users = ulString (readersF env st e).keyUsers) := by
      rintro ⟨h1, h2⟩
      rcases hcond with hc | hc
      · rw [hc] at h1
        exact Bool.noConfusion h1
      · exact hc h2
    rw [hcn, if_neg hnotcond]
    exact ⟨rfl, fun l _ => sortUsers_perm l⟩

/-- Witness for C1 at a concrete converged scenario: the file's one wrapped
key digest resolves to the owner, the intended set is the owner-only
default, and the check converges without a write. -/
theorem check_compare_decides_witness :
    checkName envW stW "o@x.com/f" = (CheckOutcome.converged, (readersF envW stW eW).st) ∧
    putHappened (checkName envW stW "o@x.com/f").1 = false :=
  (check_compare_decides envW stW "o@x.com/f" eW (by decide) rfl rfl (by decide)
    [ownerDig] rfl).1 (by decide)

/-- C2: the intended-reader resolution of `Sharer.readers` walks from the
file's parent directory upward and returns the cached reader set of the
nearest ancestor directory with a cached entry; reaching the root with no
cache hit yields the owner-only default containing exactly the root
owner's user name. -/
theorem resolveReaders_nearest_ancestor (cache : List (String × ULst)) (file : UPath) :
    resolveReaders cache file = resolveReadersSpec cache file := by
  unfold resolveReaders resolveReadersSpec
  rw [walkUsers_spec cache (dropLast1 file)]
  rfl

/-- C3 counterexample: `userList.String` does not de-duplicate, so two
lists with the same identities but different multiplicities have different
canonical strings (`a a` versus `a`), refuting the claim's
"de-duplicated … regardless of multiplicity" part. -/
theorem ulString_not_dedup :
    (∀ x, x ∈ (["a", "a"] : List String) ↔ x ∈ (["a"] : List String)) ∧
    ulString (some ["a", "a"]) ≠ ulString (some ["a"]) := by
  constructor
  · intro x
    simp
  · decide

/-- C3 (amended): `userList.String` is a case-sensitive sorted rendering —
it does not de-duplicate — and it is invariant under permutation (same
identities with the same multiplicities, in any order, give equal
canonical strings); the engine compares reader sets by equality of these
strings. -/
theorem ulString_sorted_perm_invariant (l1 l2 : List String) (h : l1.Perm l2) :
    ulString (some l1) = ulString (some l2) ∧ (sortUsers l1).Sorted userLeR := by
  refine ⟨?_, sortUsers_sorted l1⟩
  simp only [ulString]
  rw [sortUsers_congr l1 l2 h]

/-- Witness for the amended C3 at a concrete permutation. -/
theorem ulString_sorted_perm_invariant_witness :
    ulString (some ["b", "a"]) = ulString (some ["a", "b"]) ∧
      (sortUsers ["b", "a"]).Sorted userLeR :=
  ulString_sorted_perm_invariant ["b", "a"] ["a", "b"] (by decide)

/-- C4: in the hash loop of `Sharer.readers`, every 32-byte digest that
resolves to no cached user, is not one of the principal's own historical
keys, and is not the all-users key hash is classified as the explicit
`unknown` pseudo-identity and appears in the recovered actual reader set;
digests of unexpected length are rejected outright (classified as nothing
— never truncated and never attributed to a user). -/
theorem unknownDigest_surfaces (st : SharerState) (env : Env) (hashes : List Digest)
    (h : Digest) (hmem : h ∈ hashes) (hlen : h.length = sha256Size)
    (hcache : alookup st.userByHash h = none)
    (hfact : env.factotumHasHash h = false)
    (hall : h ≠ env.allUsersKeyHash) :
    classifyHash st env eePack h = some ("unknown", false) ∧
    "unknown" ∈ ulist (classifyAll st env eePack hashes).1 ∧
    ∀ d : Digest, d.length ≠ sha256Size → classifyHash st env eePack d = none := by
  have hcl : classifyHash st env eePack h = some ("unknown", false) := by
    simp [classifyHash, hlen, hcache, hfact, hall]
  refine ⟨hcl, classifyAll_mem st env eePack hashes h _ _ hmem hcl, ?_⟩
  intro d hd
  simp [classifyHash, hd]

/-- Witness for C4: a fresh state, an unresolvable 32-byte digest. -/
theorem unknownDigest_surfaces_witness :
    classifyHash st0 env0 eePack d32 = some ("unknown", false) ∧
    "unknown" ∈ ulist (classifyAll st0 env0 eePack [d32]).1 ∧
    ∀ d : Digest, d.length ≠ sha256Size → classifyHash st0 env0 eePack d = none :=
  unknownDigest_surfaces st0 env0 [d32] d32 (by simp) (by decide) rfl rfl (by decide)

/-- C5: within one `checkLoop` cycle, `Sharer.readers` first looks up every
intended user's key (logging a warning for each failure — modelled by the
`warned` list) and caches an empty key for unresolvable ones, so the
subsequent `fixShare` on the same intended set never aborts on a key
lookup: an unresolvable identity (not a wildcard sentinel) is in the
warned list, `fixShare` returns no `lookupFail` error, and the key set
handed to `packer.Share` contains only nonempty keys yet every cached
resolvable reader's key — the re-wrap proceeds with the remaining
resolvable keys. -/
theorem fixShare_skips_unresolvable (env : Env) (st0 : SharerState) (us : List String)
    (u : String) (en : UPath)
    (hmem : u ∈ us) (hall : u ≠ allUsers) (hw : isWildcardUser u = false)
    (hunc : alookup st0.userKeys u = none)
    (hfail : env.keyService u = none ∨ env.keyService u = some "")
    (hpk : env.packerKnown eePack = true) :
    u ∈ (warmKeys env st0 us).2 ∧
    (∀ v, (fixShare env (warmKeys env st0 us).1 en false eePack (some us)).err ≠
        some (FixErr.lookupFail v)) ∧
    (∃ ks, (fixShare env (warmKeys env st0 us).1 en false eePack (some us)).keysArg =
        some ks ∧
      (∀ k, k ∈ ks → k ≠ "") ∧
      (∀ v kv, v ∈ us → v ≠ allUsers →
        alookup (warmKeys env st0 us).1.userKeys v = some kv → 0 < kv.length →
        kv ∈ ks)) := by
  obtain ⟨hwarn, _⟩ := warmKeys_failed_mem env us st0 u hmem hall hw hunc hfail
  have hAllCached : ∀ v, v ∈ us → v ≠ allUsers →
      (alookup (warmKeys env st0 us).1.userKeys v).isSome = true :=
    fun v hv hvne => warmKeys_mem_cached env us st0 v hv hvne
  obtain ⟨al2, heq⟩ :=
    fixKeysGo_all_cached env us (warmKeys env st0 us).1 [] (isAccessControlFile en)
      hAllCached
  rw [List.nil_append] at heq
  refine ⟨hwarn, ?_, ?_⟩
  · intro v
    simp only [fixShare, Bool.false_eq_true, if_false, hpk, ne_eq, not_true_eq_false,
      ulist, Option.getD_some, heq]
    cases env.shareResult (if al2 then gatherKeys (warmKeys env st0 us).1 us ++ [allUsersKey]
        else gatherKeys (warmKeys env st0 us).1 us) <;> simp
  · refine ⟨if al2 then gatherKeys (warmKeys env st0 us).1 us ++ [allUsersKey]
        else gatherKeys (warmKeys env st0 us).1 us, ?_, ?_, ?_⟩
    · simp only [fixShare, Bool.false_eq_true, if_false, hpk, ne_eq, not_true_eq_false,
        ulist, Option.getD_some, heq]
      cases env.shareResult (if al2 then gatherKeys (warmKeys env st0 us).1 us ++ [allUsersKey]
          else gatherKeys (warmKeys env st0 us).1 us) <;> simp
    · intro k hk
      by_cases hal : al2
      · rw [if_pos hal] at hk
        rcases List.mem_append.mp hk with h | h
        · exact gatherKeys_ne_empty _ _ _ h
        · rw [List.mem_singleton.mp h]
          decide
      · rw [if_neg hal] at hk
        exact gatherKeys_ne_empty _ _ _ hk
    · intro v kv hv hvne hc h0
      have hg := gatherKeys_mem (warmKeys env st0 us).1 us v kv hv hvne hc h0
      by_cases hal : al2
      · rw [if_pos hal]
        exact List.mem_append_left _ hg
      · rw [if_neg hal]
        exact hg

/-- Witness for C5: a single unresolvable reader, fresh state. -/
theorem fixShare_skips_unresolvable_witness :
    "bob@x.com" ∈ (warmKeys env0 st0 ["bob@x.com"]).2 ∧
    (∀ v, (fixShare env0 (warmKeys env0 st0 ["bob@x.com"]).1 ⟨"o@x.com", ["f"]⟩
        false eePack (some ["bob@x.com"])).err ≠ some (FixErr.lookupFail v)) ∧
    (∃ ks, (fixShare env0 (warmKeys env0 st0 ["bob@x.com"]).1 ⟨"o@x.com", ["f"]⟩
        false eePack (some ["bob@x.com"])).keysArg = some ks ∧
      (∀ k, k ∈ ks → k ≠ "") ∧
      (∀ v kv, v ∈ ["bob@x.com"] → v ≠ allUsers →
        alookup (warmKeys env0 st0 ["bob@x.com"]).1.userKeys v = some kv →
        0 < kv.length → kv ∈ ks)) :=
  fixShare_skips_unresolvable env0 st0 ["bob@x.com"] "bob@x.com" ⟨"o@x.com", ["f"]⟩
    (by simp) (by decide) (by decide) rfl (Or.inl rfl) (by decide)


/-- C6: if `packer.Share` reports failure by leaving the packdata slot nil,
`fixShare` returns the "packing skipped" error and `dir.Put` is never
called — no partial or corrupt metadata is written back. -/
theorem share_failure_no_put (env : Env) (st : SharerState) (en : UPath) (users : ULst)
    (ks : List String)
    (hks : (fixShare env st en false eePack users).keysArg = some ks)
    (hshare : env.shareResult ks = none) :
    (fixShare env st en false eePack users).err = some FixErr.packingSkipped ∧
    (fixShare env st en false eePack users).putCalled = false := by
  cases hpk : env.packerKnown eePack with
  | false =>
    simp [fixShare, hpk] at hks
  | true =>
    simp only [fixShare, Bool.false_eq_true, if_false, hpk, ne_eq, not_true_eq_false] at hks ⊢
    cases hfk : fixKeysGo env (ulist users) st [] (isAccessControlFile en) with
    | error pr =>
      simp [hfk] at hks
    | ok tri =>
      obtain ⟨ks2, al, st1⟩ := tri
      simp only [hfk] at hks ⊢
      cases hsr : env.shareResult (if al then ks2 ++ [allUsersKey] else ks2) with
      | none => simp [hsr]
      | some pd =>
        exfalso
        simp only [hsr, Option.some.injEq] at hks
        simp only [show (true = false) = False by simp, if_false] at hks
        rw [Option.some.inj hks] at hsr
        rw [hshare] at hsr
        exact Option.noConfusion hsr

/-- Witness for C6: a wrap failure on a concrete entry leads to the error
and no `dir.Put`. -/
theorem share_failure_no_put_witness :
    (fixShare envC6 st0 ⟨"o@x.com", ["f"]⟩ false eePack (some [])).err =
      some FixErr.packingSkipped ∧
    (fixShare envC6 st0 ⟨"o@x.com", ["f"]⟩ false eePack (some [])).putCalled = false :=
  share_failure_no_put envC6 st0 ⟨"o@x.com", ["f"]⟩ (some []) [] (by decide) rfl

/-- C7: the pending-work buffer keeps at most one entry per path: starting
from any buffer satisfying the at-most-one invariant, `n ≥ 1` successive
enqueues of the same path (all delivered before the checker takes the
path) leave exactly one entry for it, the single dequeue that hands the
path to the checker leaves zero — so exactly one reconciliation check
results after settling — and the no-duplicates invariant is preserved. -/
theorem buffer_dedups (files : List String) (p : String) (n : Nat)
    (hn : 1 ≤ n) (hinv : files.count p ≤ 1) :
    (enqueueN n files p).count p = 1 ∧
    (dequeuePath (enqueueN n files p) p).count p = 0 ∧
    (files.Nodup → (enqueueN n files p).Nodup) := by
  obtain ⟨m, rfl⟩ : ∃ m, n = m + 1 := ⟨n - 1, by omega⟩
  have hstep : enqueueN (m + 1) files p = enqueuePath files p := by
    simp only [enqueueN]
    apply enqueueN_mem_eq
    exact List.count_pos_iff.mp (by rw [enqueuePath_count files p hinv]; omega)
  refine ⟨?_, ?_, ?_⟩
  · rw [hstep, enqueuePath_count files p hinv]
  · unfold dequeuePath
    rw [List.count_erase_self, hstep, enqueuePath_count files p hinv]
  · intro hd
    rw [hstep]
    exact enqueuePath_nodup files p hd

/-- Witness for C7: three rapid enqueues of one path. -/
theorem buffer_dedups_witness :
    (enqueueN 3 ["x"] "y").count "y" = 1 ∧
    (dequeuePath (enqueueN 3 ["x"] "y") "y").count "y" = 0 ∧
    ((["x"] : List String).Nodup → (enqueueN 3 ["x"] "y").Nodup) :=
  buffer_dedups ["x"] "y" 3 (by omega) (by decide)

/-- C9 counterexample: with the shutdown signal arriving right as the
reconnect wait begins (`shutdownAtCheck = false`, signal at offset 0), the
sharebot `watchLoop` goroutine stays blocked in `time.Sleep` for the whole
minimum interval — it does not return promptly, refuting the claim. -/
theorem watch_wait_blocks_after_shutdown :
    (watchLoopWait false 0 (some 0)).sleptAfterSignal = watchWaitNanos ∧
    (watchLoopWait false 0 (some 0)).returnedAtCheck = false := by
  constructor <;> rfl

/-- C9 (amended): the shutdown signal is honored only at the non-blocking
`select` before the wait: if it is already set there the loop returns
without sleeping, but a signal arriving during the wait does not shorten
the sleep — the goroutine remains blocked for the rest of the interval
(`time.Sleep` does not race against the shutdown channel). -/
theorem watch_wait_shutdown_only_at_check (elapsed t : Nat) :
    (watchLoopWait true elapsed (some t)).sleptTotal = 0 ∧
    (watchLoopWait false elapsed (some t)).sleptTotal =
      (watchLoopWait false elapsed none).sleptTotal ∧
    (watchLoopWait false elapsed (some t)).sleptAfterSignal =
      (watchLoopWait false elapsed none).sleptTotal - t :=
  ⟨rfl, rfl, rfl⟩

/-- C10: for a user other than the all-users sentinel and domain-wildcard
identities, the first `lookupKey` whose remote lookup fails (or yields an
empty public key) returns an error, performs the remote call, and caches
the empty key; every subsequent `lookupKey` for the same user returns the
empty key with no error and no remote call; consequently a `fixShare` that
performs the first (uncached) lookup aborts with that user's lookup error
without writing, while a `fixShare` run once the failure is cached
proceeds and silently omits the user from the key set. -/
theorem lookupKey_failure_then_silent (env : Env) (st : SharerState) (u : String)
    (en : UPath)
    (hall : u ≠ allUsers) (hw : isWildcardUser u = false)
    (hunc : alookup st.userKeys u = none)
    (hfail : env.keyService u = none ∨ env.keyService u = some "")
    (hpk : env.packerKnown eePack = true)
    (hacf : isAccessControlFile en = false) :
    (lookupKey env st u).isErr = true ∧
    (lookupKey env st u).remote = true ∧
    alookup (lookupKey env st u).st.userKeys u = some "" ∧
    lookupKey env (lookupKey env st u).st u = ⟨"", false, (lookupKey env st u).st, false⟩ ∧
    (fixShare env st en false eePack (some [u])).err = some (FixErr.lookupFail u) ∧
    (fixShare env st en false eePack (some [u])).putCalled = false ∧
    (fixShare env (lookupKey env st u).st en false eePack (some [u])).err ≠
      some (FixErr.lookupFail u) ∧
    (fixShare env (lookupKey env st u).st en false eePack (some [u])).keysArg = some [] := by
  have h1 := lookupKey_failed env st u hall hw hunc hfail
  have hcache : alookup (lookupKey env st u).st.userKeys u = some "" := by
    rw [h1]
    simp [cacheKey, alookup_ainsert_self]
  have h2 : lookupKey env (lookupKey env st u).st u =
      ⟨"", false, (lookupKey env st u).st, false⟩ :=
    lookupKey_cached env _ u "" hall hcache
  have hfk1 : fixKeysGo env [u] st [] (isAccessControlFile en) =
      .error (u, (lookupKey env st u).st) := by
    simp only [fixKeysGo, hall, if_false, h1]
    simp [h1]
  have hfk2 : fixKeysGo env [u] (lookupKey env st u).st [] (isAccessControlFile en) =
      .ok ([], isAccessControlFile en, (lookupKey env st u).st) := by
    simp only [fixKeysGo, hall, if_false, h2]
    simp
  have hfx1 : fixShare env st en false eePack (some [u]) =
      ⟨some (FixErr.lookupFail u), (lookupKey env st u).st, false, none⟩ := by
    simp only [fixShare, Bool.false_eq_true, if_false, hpk, ne_eq, not_true_eq_false,
      ulist, Option.getD_some, hfk1]
    simp [show (true = false) = False by simp]
  have hfx2all : fixShare env (lookupKey env st u).st en false eePack (some [u]) =
      ⟨(match env.shareResult [] with
        | none => some FixErr.packingSkipped
        | some _ => none),
       (lookupKey env st u).st,
       (match env.shareResult [] with
        | none => false
        | some _ => true), some []⟩ := by
    rw [hacf] at hfk2
    simp only [fixShare, Bool.false_eq_true, if_false, hpk, ne_eq, not_true_eq_false,
      ulist, Option.getD_some, hacf, hfk2]
    simp only [show (true = false) = False by simp, if_false]
    cases env.shareResult [] <;> simp
  refine ⟨by rw [h1], by rw [h1], hcache, h2, by rw [hfx1], by rw [hfx1], ?_, by rw [hfx2all]⟩
  rw [hfx2all]
  cases env.shareResult [] <;> simp

/-- Witness for C10 at a concrete failing user and fresh state. -/
theorem lookupKey_failure_then_silent_witness :
    (lookupKey env0 st0 "bob@x.com").isErr = true ∧
    (lookupKey env0 st0 "bob@x.com").remote = true ∧
    alookup (lookupKey env0 st0 "bob@x.com").st.userKeys "bob@x.com" = some "" ∧
    lookupKey env0 (lookupKey env0 st0 "bob@x.com").st "bob@x.com" =
      ⟨"", false, (lookupKey env0 st0 "bob@x.com").st, false⟩ ∧
    (fixShare env0 st0 ⟨"o@x.com", ["f"]⟩ false eePack (some ["bob@x.com"])).err =
      some (FixErr.lookupFail "bob@x.com") ∧
    (fixShare env0 st0 ⟨"o@x.com", ["f"]⟩ false eePack (some ["bob@x.com"])).putCalled =
      false ∧
    (fixShare env0 (lookupKey env0 st0 "bob@x.com").st ⟨"o@x.com", ["f"]⟩ false eePack
        (some ["bob@x.com"])).err ≠ some (FixErr.lookupFail "bob@x.com") ∧
    (fixShare env0 (lookupKey env0 st0 "bob@x.com").st ⟨"o@x.com", ["f"]⟩ false eePack
        (some ["bob@x.com"])).keysArg = some [] :=
  lookupKey_failure_then_silent env0 st0 "bob@x.com" ⟨"o@x.com", ["f"]⟩
    (by decide) (by decide) rfl (Or.inl rfl) (by decide) (by decide)

/-- C8 (code bug in the accessor variant): on a write event for
`u@example.com/dir/Access` whose new content grants read to aly and the
owner, the accessor `addAccess` returns immediately with the caches
unchanged — the stale owner-only reader set stays — because the directory
already has an `accessFiles` binding; the sharebot variant of `addAccess`
on the same input parses the new content and replaces the cached entry
with the new reader set, as the claim (and the integration test)
requires. -/
theorem addAccess_accessor_keeps_stale :
    addAccessAccessor envC8 stC8 ⟨"u@example.com", ["dir", "Access"]⟩ false =
      AccOut.ok stC8 ∧
    alookup stC8.users "u@example.com/dir" = some (some ["u@example.com"]) ∧
    addAccessSharebot envC8 stC8 ⟨"u@example.com", ["dir", "Access"]⟩ =
      some { stC8 with
        accessFiles := ainsert stC8.accessFiles "u@example.com/dir" (some 2),
        users := ainsert stC8.users "u@example.com/dir"
          (some ["aly@example.net", "u@example.com"]) } ∧
    alookup (ainsert stC8.users "u@example.com/dir"
        (some ["aly@example.net", "u@example.com"])) "u@example.com/dir" =
      some (some ["aly@example.net", "u@example.com"]) := by
  refine ⟨by decide, by decide, by decide, by decide⟩
